import Mathlib

/-!
Verification of the report-synthesis pipeline of the Assignment-Agent frontend.

The development shallowly embeds the pure text-processing core of the
repository:

* `splitPPTFileSections` / `extractPPTScores` from
  `frontend/src/utils/pptProcessors.jsx`,
* the statistics part of `downloadExcel` from
  `frontend/src/utils/excelExport.jsx`,
* `buildStudentText`, the per-record text of `downloadResult`, and the
  guard/payload structure of `downloadDoc` / `downloadPdf` from
  `frontend/src/utils/fileDownloaders.jsx`.

Modelling conventions:

* JavaScript strings are Lean `String`s; most work happens on their
  underlying `List Char`.
* JavaScript numbers are modelled as exact rationals (`ℚ`); the float
  literal `0.01` of the source is the rational `1/100`, and `toFixed(2)`
  is round-half-up to two decimals.
* The regular expressions of the source are implemented directly as
  scanning functions with the exact greedy/backtracking behaviour the
  patterns have on the relevant inputs.
* The whitespace class used by `trim` and `\s` is the ASCII subset
  (space, tab, newline, carriage return, vertical tab, form feed);
  the exotic unicode whitespace characters accepted by JavaScript do
  not occur in this pipeline.
* Fallible scans return `Option`; dynamically typed inputs are modelled
  by the inductive `JSVal`.
-/

/-- ASCII whitespace characters, the subset of the JavaScript `\s` class and
`String.prototype.trim` relevant here. -/
def isWs (c : Char) : Bool :=
  c = ' ' || c = '\t' || c = '\n' || c = '\r' || c = '\x0b' || c = '\x0c'

/-- Decimal digit test (`\d`). -/
def isDigit (c : Char) : Bool :=
  '0' ≤ c && c ≤ '9'

/-- The JavaScript `String.prototype.trim` on character lists: drop whitespace at both ends. -/
def jsTrimList (l : List Char) : List Char :=
  ((l.dropWhile isWs).reverse.dropWhile isWs).reverse

/-- The JavaScript `String.prototype.trim`. -/
def jsTrim (s : String) : String :=
  ⟨jsTrimList s.data⟩

/-- First index at which `needle` occurs in `hay` (JavaScript `indexOf`,
with `none` for `-1`). -/
def subIndex (hay needle : List Char) : Option Nat :=
  if needle.isPrefixOf hay then some 0
  else
    match hay with
    | [] => none
    | _ :: t => (subIndex t needle).map (· + 1)

/-- Predicate: `needle` occurs in `hay` at position `k`. -/
def OccursAt (hay needle : List Char) (k : Nat) : Prop :=
  needle.isPrefixOf (hay.drop k) = true

instance (hay needle : List Char) (k : Nat) : Decidable (OccursAt hay needle k) := by
  unfold OccursAt; infer_instance

/-- Predicate: `needle` occurs at `i` in `hay` and at no earlier position. -/
def FirstOccurAt (hay needle : List Char) (i : Nat) : Prop :=
  OccursAt hay needle i ∧ ∀ j, j < i → ¬ OccursAt hay needle j

theorem subIndex_some_iff (hay needle : List Char) (i : Nat) :
    subIndex hay needle = some i ↔ FirstOccurAt hay needle i := by
  induction hay generalizing i with
  | nil =>
    rw [subIndex]
    by_cases h : needle.isPrefixOf ([] : List Char) = true
    · simp only [if_pos h]
      constructor
      · rintro ⟨rfl⟩
        exact ⟨h, fun j hj => absurd hj (Nat.not_lt_zero j)⟩
      · rintro ⟨h0, hmin⟩
        rcases i with _ | i
        · rfl
        · exact absurd (show OccursAt [] needle 0 from by
            simpa [OccursAt] using h) (hmin 0 (Nat.succ_pos i))
    · simp only [if_neg h]
      constructor
      · intro hc; exact absurd hc (by simp)
      · rintro ⟨h0, _⟩
        exfalso
        apply h
        simpa [OccursAt] using h0
  | cons c t ih =>
    rw [subIndex]
    by_cases h : needle.isPrefixOf (c :: t) = true
    · simp only [if_pos h]
      constructor
      · rintro ⟨rfl⟩
        exact ⟨by simpa [OccursAt] using h, fun j hj => absurd hj (Nat.not_lt_zero j)⟩
      · rintro ⟨h0, hmin⟩
        rcases i with _ | i
        · rfl
        · exact absurd (show OccursAt (c :: t) needle 0 from by
            simpa [OccursAt] using h) (hmin 0 (Nat.succ_pos i))
    · simp only [if_neg h]
      constructor
      · intro hc
        rcases Option.map_eq_some'.mp hc with ⟨i0, hi0, rfl⟩
        rcases (ih i0).mp hi0 with ⟨h0, hmin⟩
        refine ⟨by simpa [OccursAt] using h0, ?_⟩
        intro j hj
        rcases j with _ | j
        · intro hocc
          exact h (by simpa [OccursAt] using hocc)
        · intro hocc
          exact hmin j (Nat.lt_of_succ_lt_succ hj) (by simpa [OccursAt] using hocc)
      · rintro ⟨h0, hmin⟩
        rcases i with _ | i
        · exact absurd (by simpa [OccursAt] using h0) h
        · have : subIndex t needle = some i := by
            apply (ih i).mpr
            constructor
            · simpa [OccursAt] using h0
            · intro j hj hocc
              exact hmin (j + 1) (Nat.succ_lt_succ hj) (by simpa [OccursAt] using hocc)
          simp [this]

theorem subIndex_none_iff (hay needle : List Char) :
    subIndex hay needle = none ↔ ∀ k, ¬ OccursAt hay needle k := by
  induction hay with
  | nil =>
    rw [subIndex]
    by_cases h : needle.isPrefixOf ([] : List Char) = true
    · simp only [if_pos h]
      constructor
      · intro hc; exact absurd hc (by simp)
      · intro hall; exact absurd (show OccursAt [] needle 0 by simpa [OccursAt] using h) (hall 0)
    · simp only [if_neg h]
      constructor
      · intro _ k
        intro hocc
        exact h (by simpa [OccursAt, List.drop_nil] using hocc)
      · intro _; trivial
  | cons c t ih =>
    rw [subIndex]
    by_cases h : needle.isPrefixOf (c :: t) = true
    · simp only [if_pos h]
      constructor
      · intro hc; exact absurd hc (by simp)
      · intro hall
        exact absurd (show OccursAt (c :: t) needle 0 by simpa [OccursAt] using h) (hall 0)
    · simp only [if_neg h]
      constructor
      · intro hc k
        have ht : subIndex t needle = none := by
          cases hsub : subIndex t needle with
          | none => rfl
          | some v => rw [hsub] at hc; exact absurd hc (by simp)
        rcases k with _ | k
        · intro hocc; exact h (by simpa [OccursAt] using hocc)
        · intro hocc
          exact (ih.mp ht) k (by simpa [OccursAt] using hocc)
      · intro hall
        have ht : subIndex t needle = none := by
          apply ih.mpr
          intro k hocc
          exact hall (k + 1) (by simpa [OccursAt] using hocc)
        simp [ht]

theorem subIndex_isSome_iff (hay needle : List Char) :
    (subIndex hay needle).isSome = true ↔ ∃ k, OccursAt hay needle k := by
  constructor
  · intro h
    rcases Option.isSome_iff_exists.mp h with ⟨i, hi⟩
    exact ⟨i, ((subIndex_some_iff hay needle i).mp hi).1⟩
  · intro ⟨k, hk⟩
    cases hsub : subIndex hay needle with
    | some v => simp
    | none => exact absurd hk ((subIndex_none_iff hay needle).mp hsub k)

theorem subIndex_le_of_occurs (hay needle : List Char) (i k : Nat)
    (hi : subIndex hay needle = some i) (hk : OccursAt hay needle k) : i ≤ k := by
  rcases (subIndex_some_iff hay needle i).mp hi with ⟨_, hmin⟩
  by_contra hlt
  exact hmin k (Nat.lt_of_not_le hlt) hk

/-- Split on maximal runs of two or more newlines, the behaviour of the
JavaScript `text.split(/\n\n+/)` of `splitPPTFileSections`. The fuel
argument (always at least the list length) only serves termination. -/
def splitBlocksAux : Nat → List Char → List Char → List (List Char)
  | 0, _, acc => [acc.reverse]
  | _ + 1, [], acc => [acc.reverse]
  | fu + 1, c :: rest, acc =>
    if c = '\n' && rest.head? = some '\n' then
      acc.reverse :: splitBlocksAux fu (rest.dropWhile (· = '\n')) []
    else
      splitBlocksAux fu rest (c :: acc)

/-- The split `text.split(/\n\n+/)`. -/
def splitBlocks (cs : List Char) : List (List Char) :=
  splitBlocksAux (cs.length + 1) cs []

/-- Backtracking step of the greedy `\s+` / `\s*` before the `([^\n]+)`
capture of the `File:` patterns: when the whitespace run reaches the end of
the input, the engine gives characters back one at a time, so the capture
starts at the last position `m` of the run (with at least `minW` whitespace
characters kept before it) holding a character other than a newline. -/
def backIdx (run : List Char) (minW : Nat) : Option Nat :=
  (List.range run.length).reverse.find? fun m =>
    minW ≤ m &&
      (match run.drop m with
       | c :: _ => c ≠ '\n'
       | [] => false)

/-- Capture produced by the backtracking step: the rest of the line starting
at the backtracked position. -/
def backCapture (run : List Char) (minW : Nat) : Option (List Char) :=
  (backIdx run minW).map fun m => (run.drop m).takeWhile (· ≠ '\n')

/-- Attempt the pattern `File:` + whitespace + `([^\n]+)` at the head of `l`
(`reqOne` selects `\s+`, as in the splitter, over `\s*`, as in the score
extractor). Returns the capture. -/
def tryFileAt (reqOne : Bool) (l : List Char) : Option (List Char) :=
  if ("File:".data).isPrefixOf l then
    let after := l.drop 5
    let w := (after.takeWhile isWs).length
    if reqOne && decide (w = 0) then none
    else
      match after.drop w with
      | c :: r => some ((c :: r).takeWhile (· ≠ '\n'))
      | [] => backCapture (after.take w) (if reqOne then 1 else 0)
  else none

/-- Scan for the first multiline-anchored match of `/^File:\s+([^\n]+)/m`
(or the `\s*` variant): positions at the start of the input or right after a
newline are tried left to right. -/
def fileScanAux (reqOne : Bool) : Bool → List Char → Option (List Char)
  | atStart, [] => if atStart then tryFileAt reqOne [] else none
  | atStart, c :: t =>
    match (if atStart then tryFileAt reqOne (c :: t) else none) with
    | some cap => some cap
    | none => fileScanAux reqOne (c = '\n') t

/-- Capture of the first `/^File:\s...([^\n]+)/m` match, if any. -/
def fileMatchCap (reqOne : Bool) (cs : List Char) : Option (List Char) :=
  fileScanAux reqOne true cs

/-- JavaScript `indexOf` result as an integer, `-1` when absent. -/
def jsIdx : Option Nat → Int
  | some i => (i : Int)
  | none => -1

/-- Minimum of two optional indices, `none` playing the role of `Infinity`
in the `firstEvalIndex` computation of the splitter. -/
def optMin : Option Nat → Option Nat → Option Nat
  | none, b => b
  | a, none => a
  | some i, some j => some (min i j)

/-- The `isMainFileHeader` test of `splitPPTFileSections` (lines 22-38 of
`pptProcessors.jsx`): a multiline `File:` header line, a newline-prefixed
`Total Slides:`, first `File:` occurrence before first `Total Slides:`
occurrence, and the latter before the first evaluation marker (if any). -/
def isMainFileHeader (t : List Char) : Bool :=
  let startsWithFile := (fileMatchCap true t).isSome
  let hasTotalSlides := (subIndex t ("\nTotal Slides:".data)).isSome
  let fileIndex := jsIdx (subIndex t ("File:".data))
  let totalSlidesIndex := jsIdx (subIndex t ("Total Slides:".data))
  let firstEvalIndex := optMin (subIndex t ("CONTENT EVALUATION".data))
    (subIndex t ("VISUAL DESIGN EVALUATION".data))
  startsWithFile && hasTotalSlides && decide (fileIndex < totalSlidesIndex) &&
    (match firstEvalIndex with
     | none => true
     | some e => decide (totalSlidesIndex < (e : Int)))

/-- The value `fileMatch ? fileMatch[1].trim() : null` of the splitter. -/
def extractedNameOf (trimmed : List Char) : Option (List Char) :=
  (fileMatchCap true trimmed).map jsTrimList

/-- The three mutable loop variables of `splitPPTFileSections`. -/
structure SplitSt where
  cur : List Char
  curName : List Char
  secs : List (List Char)
deriving DecidableEq

/-- The blank-line separator reinserted between continuation blocks. -/
def nn : List Char := ['\n', '\n']

/-- Truthiness of the extracted filename: `null` and the empty string are
falsy. -/
def optFalsy : Option (List Char) → Bool
  | none => true
  | some f => f.isEmpty

/-- The `isMainFileHeader && (!currentFilename || extractedFilename !==
currentFilename)` guard of the first branch of the loop. -/
def newFileCond (trimmed curName : List Char) : Bool :=
  isMainFileHeader trimmed &&
    (decide (curName = []) || decide (extractedNameOf trimmed ≠ some curName))

/-- One iteration of the `for (const part of parts)` loop of
`splitPPTFileSections`. -/
def stepPart (st : SplitSt) (part : List Char) : SplitSt :=
  let trimmed := jsTrimList part
  let ef := extractedNameOf trimmed
  let belongs : Bool := decide (st.curName ≠ []) &&
    (match ef with
     | some f => decide (f ≠ []) && decide (f = st.curName)
     | none => false)
  if newFileCond trimmed st.curName then
    { cur := trimmed, curName := ef.getD [],
      secs := st.secs ++ (if st.cur ≠ [] then [jsTrimList st.cur] else []) }
  else if belongs || (optFalsy ef && decide (st.cur ≠ [])) then
    { st with cur := st.cur ++ nn ++ trimmed }
  else if st.cur = [] then
    { cur := trimmed, curName := ef.getD [], secs := st.secs }
  else
    { st with cur := st.cur ++ nn ++ trimmed }

/-- The filtered candidate blocks: `text.split(/\n\n+/).filter(p =>
p.trim().length > 0)`. -/
def partsOf (cs : List Char) : List (List Char) :=
  (splitBlocks cs).filter fun p => !(jsTrimList p).isEmpty

/-- Body of `splitPPTFileSections` on the characters of a non-empty string. -/
def splitCore (cs : List Char) : List (List Char) :=
  let st := (partsOf cs).foldl stepPart ⟨[], [], []⟩
  let fileSections := st.secs ++ (if st.cur ≠ [] then [jsTrimList st.cur] else [])
  if fileSections.length > 0 then fileSections else [cs]

/-- The function `splitPPTFileSections` of `pptProcessors.jsx` on a string input (the
`!text` guard returns `[]` for the empty string; non-string inputs are
handled by the `JSVal` wrapper below). -/
def splitPPTFileSections (text : String) : List String :=
  if text = "" then [] else (splitCore text.data).map String.mk

/-- Blank-line rejoin of a list of blocks, the accumulated shape of
`currentFile` after continuation appends. -/
def joinBlocks : List (List Char) → List Char
  | [] => []
  | h :: t => h ++ (t.map fun b => nn ++ b).flatten

/-- The JavaScript `parseInt` on a run of decimal digits. -/
def natOfDigits (ds : List Char) : Nat :=
  ds.foldl (fun n c => n * 10 + (c.toNat - 48)) 0

/-- Attempt `<label>` + `\s*` + `(\d+)` + `/100` at the head of `l`,
returning the parsed integer. Greedy `\s*` and `\d+` need no backtracking
here: giving characters back can never let the following `\d+` / `/100`
literal match. -/
def tryScoreAt (label : List Char) (l : List Char) : Option Nat :=
  if label.isPrefixOf l then
    let after := l.drop label.length
    let afterWs := after.drop (after.takeWhile isWs).length
    let ds := afterWs.takeWhile isDigit
    if !ds.isEmpty && ("/100".data).isPrefixOf (afterWs.drop ds.length) then
      some (natOfDigits ds)
    else none
  else none

/-- Scan every start position, left to right, for the unanchored score
pattern; the first successful position wins, as for a JavaScript `match`
without `/g`. -/
def scoreScanAux (label : List Char) : List Char → Option Nat
  | [] => none
  | c :: t =>
    match tryScoreAt label (c :: t) with
    | some n => some n
    | none => scoreScanAux label t

/-- First match of `/<label>\s*(\d+)\/100/`, as an integer. -/
def scoreScan (label : List Char) (cs : List Char) : Option Nat :=
  scoreScanAux label cs

/-- The three optional score markers looked up by `extractPPTScores`. -/
def presentScores (cs : List Char) : List Nat :=
  [scoreScan ("Content Quality Score:".data) cs,
   scoreScan ("Structure Score:".data) cs,
   scoreScan ("Alignment Score:".data) cs].filterMap id

/-- Lines 95-105 of `pptProcessors.jsx`: if any of the three markers
matched, the score is the mean of the parsed values; otherwise it stays
`null`. -/
def scoreOf (cs : List Char) : Option ℚ :=
  let mC := scoreScan ("Content Quality Score:".data) cs
  let mS := scoreScan ("Structure Score:".data) cs
  let mA := scoreScan ("Alignment Score:".data) cs
  if mC.isSome || mS.isSome || mA.isSome then
    let scores := ([mC, mS, mA].filterMap id).map fun n => (n : ℚ)
    if scores.length > 0 then some (scores.sum / (scores.length : ℚ)) else none
  else none

/-- Continuation lines of the feedback pattern:
`(?:\n(?!\n|Score|File:)[^\n]+)*` — a newline not followed by a blank line,
`Score`, or `File:`, then at least one non-newline character, repeated
greedily. Returns the matched text (fuel only serves termination). -/
def contLinesAux : Nat → List Char → List Char
  | 0, _ => []
  | fu + 1, l =>
    match l with
    | '\n' :: c :: rest =>
      if c ≠ '\n' && !("Score".data).isPrefixOf (c :: rest) &&
          !("File:".data).isPrefixOf (c :: rest) then
        let line := (c :: rest).takeWhile (· ≠ '\n')
        '\n' :: (line ++ contLinesAux fu ((c :: rest).drop line.length))
      else []
    | _ => []

/-- Continuation lines matched after the first feedback line. -/
def contLines (l : List Char) : List Char :=
  contLinesAux (l.length + 1) l

/-- Attempt the feedback pattern
`/Feedback:\s*([^\n]+(?:\n(?!\n|Score|File:)[^\n]+)*)/` at the head of `l`.
Returns the match with the `^Feedback:\s*` prefix stripped (the
`.replace(/^Feedback:\s*/, '')` applied by the source) and the total number
of characters consumed by the match. -/
def tryFeedbackAt (l : List Char) : Option (List Char × Nat) :=
  if ("Feedback:".data).isPrefixOf l then
    let after := l.drop 9
    let w := (after.takeWhile isWs).length
    match after.drop w with
    | c :: r =>
      let cap := (c :: r).takeWhile (· ≠ '\n')
      let cont := contLines ((c :: r).drop cap.length)
      some ((after.take w ++ cap ++ cont).dropWhile isWs, 9 + w + cap.length + cont.length)
    | [] =>
      match backIdx (after.take w) 0 with
      | some m =>
        let tail2 := after.drop m
        let cap := tail2.takeWhile (· ≠ '\n')
        let cont := contLines (tail2.drop cap.length)
        some ((after.take m ++ cap ++ cont).dropWhile isWs, 9 + m + cap.length + cont.length)
      | none => none
  else none

/-- All matches of the global feedback pattern, already stripped of their
`Feedback:` prefix: scan left to right, resuming after each match, as a
JavaScript `/g` match does. Fuel only serves termination (every match
consumes at least nine characters). -/
def feedbackScanAux : Nat → List Char → List (List Char)
  | 0, _ => []
  | _ + 1, [] => []
  | fu + 1, c :: t =>
    match tryFeedbackAt (c :: t) with
    | some (content, consumed) => content :: feedbackScanAux fu ((c :: t).drop consumed)
    | none => feedbackScanAux fu t

/-- The stripped `Feedback:` matches of a section. -/
def feedbackScan (cs : List Char) : List (List Char) :=
  feedbackScanAux (cs.length + 1) cs

/-- The join `.join('; ')` on character lists. -/
def joinSemi : List (List Char) → List Char
  | [] => []
  | h :: t => h ++ (t.map fun b => ("; ".data) ++ b).flatten

/-- The `reasoning` string built by `extractPPTScores` for one section
(empty when the feedback pattern never matches). -/
def reasoningOf (cs : List Char) : List Char :=
  joinSemi (feedbackScan cs)

/-- The filename of a section: first `/^File:\s*([^\n]+)/m` capture, trimmed,
else the literal `Unknown`. -/
def filenameOf (cs : List Char) : List Char :=
  match fileMatchCap false cs with
  | some cap => jsTrimList cap
  | none => "Unknown".data

/-- The dynamic value stored in the `score_percent` field of a score record:
a number, a string, or an absent (`undefined`) value. -/
inductive ScoreVal where
  | num (q : ℚ)
  | strv (s : String)
  | undef
deriving DecidableEq

/-- A record pushed onto `pptScores` by `extractPPTScores`. -/
structure PPTRec where
  name : String
  score_percent : ScoreVal
  reasoning : String
deriving DecidableEq

/-- Lines 83-119 of `pptProcessors.jsx`: the record one section contributes,
or `none` when the `if (filename && (score !== null || reasoning))` guard
rejects it. -/
def sectionRecord (cs : List Char) : Option PPTRec :=
  let filename := filenameOf cs
  let score := scoreOf cs
  let reasoning := reasoningOf cs
  if filename ≠ [] ∧ (score.isSome = true ∨ reasoning ≠ []) then
    some
      { name := ⟨filename⟩,
        score_percent := match score with
          | some q => ScoreVal.num q
          | none => ScoreVal.strv "-",
        reasoning := ⟨if reasoning = [] then "Evaluation completed".data else reasoning⟩ }
  else none

/-- The function `extractPPTScores` of `pptProcessors.jsx` on a string input. -/
def extractPPTScores (result : String) : List PPTRec :=
  if result = "" then []
  else (splitPPTFileSections result).filterMap fun sec => sectionRecord sec.data

/-- A JavaScript value at the public interface of the two processors. -/
inductive JSVal where
  | vstr (s : String)
  | vnum (q : ℚ)
  | vbool (b : Bool)
  | vnull
  | vundef
  | varr (n : Nat)

/-- The test `typeof v === 'string'`. -/
def jsIsString : JSVal → Bool
  | JSVal.vstr _ => true
  | _ => false

/-- The `if (!text || typeof text !== 'string') return []` guard of
`splitPPTFileSections` over arbitrary values: only truthy strings reach the
body. -/
def splitPPTFileSectionsJS : JSVal → List String
  | JSVal.vstr s => splitPPTFileSections s
  | _ => []

/-- The `if (!result || typeof result !== 'string') return []` guard of
`extractPPTScores` over arbitrary values. -/
def extractPPTScoresJS : JSVal → List PPTRec
  | JSVal.vstr s => extractPPTScores s
  | _ => []

/-- Two-decimal rendering of a non-negative rational: the integer
`n = ⌊x·100 + 1/2⌋` (ECMAScript `toFixed` picks the larger candidate on
ties) printed with an explicit two-digit fraction. -/
def toFixed2Nn (x : ℚ) : String :=
  let n := (Int.floor (x * 100 + 1 / 2)).toNat
  toString (n / 100) ++ "." ++
    (if n % 100 < 10 then "0" ++ toString (n % 100) else toString (n % 100))

/-- ECMAScript `Number.prototype.toFixed(2)` on exact rationals. -/
def toFixed2 (x : ℚ) : String :=
  if x < 0 then "-" ++ toFixed2Nn (-x) else toFixed2Nn x

/-- One per-question detail object consumed by the renderers
(`QuestionDetail` of the data model); absent fields are `none`. -/
structure QDetail where
  question : Option String := none
  student_answer : Option String := none
  correct_answer : Option String := none
  is_correct : Option Bool := none
  feedback : Option String := none
deriving DecidableEq

/-- A score record as consumed by `downloadExcel`, `buildStudentText` and
`downloadResult` (`ScoreRecord` of the data model). -/
structure StudentRec where
  name : Option String := none
  score_percent : ScoreVal := ScoreVal.undef
  reasoning : Option String := none
  details : Option (List QDetail) := none
deriving DecidableEq

/-- JavaScript string truthiness of an optional string field. -/
def jsTruthyStr : Option String → Bool
  | some s => s ≠ ""
  | none => false

/-- The fallback `x || '-'` on an optional string field. -/
def orDash (o : Option String) : String :=
  match o with
  | some s => if s = "" then "-" else s
  | none => "-"

/-- The `extractFeedback` helper of `downloadExcel` (lines 14-30 of
`excelExport.jsx`): the non-blank detail feedbacks, each prefixed with its
1-based question label, joined with a bar, or a dash. -/
def extractFeedback (s : StudentRec) : String :=
  match s.details with
  | none => "-"
  | some ds =>
    if ds.length = 0 then "-"
    else
      let feedbacks := ds.enum.filterMap fun p =>
        match p.2.feedback with
        | some f =>
          if jsTrim f ≠ "" then some ("Q" ++ toString (p.1 + 1) ++ ": " ++ jsTrim f)
          else none
        | none => none
      if feedbacks.length > 0 then String.intercalate " | " feedbacks else "-"

/-- One element of the `validScores` array of `downloadExcel`: the mapped
record shape, kept only when the score is a number. -/
structure ValidRow where
  name : String
  score : ℚ
  reasoning : String
  feedback : String
deriving DecidableEq

/-- The map step of `validScores` on one raw record, `none` when the
subsequent `filter(s => s.score !== null && !isNaN(s.score))` drops it. -/
def toValidRow (s : StudentRec) : Option ValidRow :=
  match s.score_percent with
  | ScoreVal.num q => some ⟨orDash s.name, q, orDash s.reasoning, extractFeedback s⟩
  | _ => none

/-- The array `validScores` of `downloadExcel` (lines 33-41 of `excelExport.jsx`). -/
def validScores (rawScores : List StudentRec) : List ValidRow :=
  rawScores.filterMap toValidRow

/-- The array `scoresArray = validScores.map(s => s.score)`. -/
def scoresArrayOf (rawScores : List StudentRec) : List ℚ :=
  (validScores rawScores).map fun v => v.score

/-- The `average` variable of `downloadExcel` (lines 45-47): mean of the
numeric scores rendered by `toFixed(2)`, or the literal `N/A`. -/
def averageOf (rawScores : List StudentRec) : String :=
  let a := scoresArrayOf rawScores
  if a.length > 0 then toFixed2 (a.sum / (a.length : ℚ)) else "N/A"

/-- The maximum `Math.max(...scoresArray)` guarded by emptiness (line 50). -/
def maxScoreOf (rawScores : List StudentRec) : Option ℚ :=
  match scoresArrayOf rawScores with
  | [] => none
  | x :: xs => some (xs.foldl max x)

/-- The minimum `Math.min(...scoresArray)` guarded by emptiness (line 56). -/
def minScoreOf (rawScores : List StudentRec) : Option ℚ :=
  match scoresArrayOf rawScores with
  | [] => none
  | x :: xs => some (xs.foldl min x)

/-- The group `highestStudents` (lines 51-53): every valid row within the absolute
tolerance `0.01` of the maximum. -/
def highestStudentsOf (rawScores : List StudentRec) : List ValidRow :=
  match maxScoreOf rawScores with
  | none => []
  | some m => (validScores rawScores).filter fun v => decide (|v.score - m| < 1 / 100)

/-- The group `lowestStudents` (lines 57-59). -/
def lowestStudentsOf (rawScores : List StudentRec) : List ValidRow :=
  match minScoreOf rawScores with
  | none => []
  | some m => (validScores rawScores).filter fun v => decide (|v.score - m| < 1 / 100)

/-- The numeric scores of exactly the records whose `score_percent` is a
number, read directly off the raw collection (specification-side view used
to state the average claim). -/
def numericScores (rawScores : List StudentRec) : List ℚ :=
  rawScores.filterMap fun s =>
    match s.score_percent with
    | ScoreVal.num q => some q
    | _ => none

/-- A record carrying the unscored marker `'-'`. -/
def isUnscoredMarker (s : StudentRec) : Bool :=
  match s.score_percent with
  | ScoreVal.strv v => v = "-"
  | _ => false

/-- The JavaScript `Number()` coercion of a string, for the plain decimal
forms occurring in this pipeline (optional sign, integer and fractional
digits; a trimmed-empty string is `0`). Any other form — in particular the
unscored marker `'-'` — is not a number and maps to `none`, as do the
non-finite results relevant to the `isFinite` guards of the source. -/
def jsNumber (s : String) : Option ℚ :=
  let t := jsTrimList s.data
  if t = [] then some 0
  else
    let sr : ℚ × List Char :=
      match t with
      | '+' :: r => (1, r)
      | '-' :: r => (-1, r)
      | r => (1, r)
    let intPart := sr.2.takeWhile isDigit
    let rest := sr.2.drop intPart.length
    match rest with
    | [] => if intPart = [] then none else some (sr.1 * (natOfDigits intPart : ℚ))
    | '.' :: fr =>
      let frac := fr.takeWhile isDigit
      if fr.drop frac.length ≠ [] then none
      else if intPart = [] ∧ frac = [] then none
      else some (sr.1 * ((natOfDigits intPart : ℚ) +
        (natOfDigits frac : ℚ) / ((10 : ℚ) ^ frac.length)))
    | _ => none

/-- The coercion `typeof v === 'number' ? v : Number(v)` followed by the `isFinite`
test: the finite numeric value of a `score_percent` field, if any. -/
def scNumOf : ScoreVal → Option ℚ
  | ScoreVal.num q => some q
  | ScoreVal.strv s => jsNumber s
  | ScoreVal.undef => none

/-- The `reason` local of `buildStudentText` and of the record branch of
`downloadResult`: the reasoning text, or the empty string. -/
def reasonStr (s : StudentRec) : String :=
  if jsTruthyStr s.reasoning then s.reasoning.getD "" else ""

/-- The `needImp` local: `isFinite(scNum) && scNum >= 100 ? 'None' :
(reason || '')`. -/
def needImprove (s : StudentRec) : String :=
  match scNumOf s.score_percent with
  | some q => if 100 ≤ q then "None" else reasonStr s
  | none => reasonStr s

/-- The `sc` local: the two-decimal rendering when finite, else the raw
`score_percent ?? '-'`. -/
def scoreText (s : StudentRec) : String :=
  match scNumOf s.score_percent with
  | some q => toFixed2 q
  | none =>
    match s.score_percent with
    | ScoreVal.strv v => v
    | ScoreVal.num q => toFixed2 q
    | ScoreVal.undef => "-"

/-- The five-line record of one question detail, empty feedback line
filtered out (`filter(Boolean).join('\n')`). -/
def detailText (idx : Nat) (d : QDetail) : String :=
  let q := if jsTruthyStr d.question then d.question.getD "" else "-"
  let sa := if jsTruthyStr d.student_answer then d.student_answer.getD "" else "-"
  let ca := if jsTruthyStr d.correct_answer then d.correct_answer.getD "" else "-"
  let res := if d.is_correct = some true then "Correct" else "Incorrect"
  let fb := if jsTruthyStr d.feedback then d.feedback.getD "" else ""
  String.intercalate "\n"
    ((["Q" ++ toString (idx + 1) ++ ": " ++ q,
       "Answer: " ++ sa,
       "Correct answer: " ++ ca,
       "Evaluation: " ++ res,
       if fb ≠ "" then "Feedback: " ++ fb else ""].filter fun x => x ≠ ""))

/-- The `header.concat(details)` line list shared (up to the name fallback
literal) by `buildStudentText` and the per-record branch of
`downloadResult`: four header fields in fixed order followed by the
optional per-question block. -/
def studentLines (nameFallback : String) (s : StudentRec) : List String :=
  let nm := if jsTruthyStr s.name then s.name.getD "" else nameFallback
  let header := ["Student name: " ++ nm,
                 "Score: " ++ scoreText s,
                 "Reason: " ++ reasonStr s,
                 "Need to improve: " ++ needImprove s]
  let details :=
    match s.details with
    | some ds =>
      if ds.length > 0 then
        ["", "Per-question evaluation:"] ++ ds.enum.map fun p => detailText p.1 p.2
      else []
    | none => []
  header ++ details

/-- The function `buildStudentText` of `fileDownloaders.jsx` (lines 41-72); the name
falls back to `'Student'`. -/
def buildStudentText (s : StudentRec) : String :=
  String.intercalate "\n" (studentLines "Student" s)

/-- The per-record text built inline by `downloadResult` (lines 141-171 of
`fileDownloaders.jsx`), a verbatim duplicate of the `buildStudentText`
logic with `'-'` as the name fallback instead of `'Student'`. -/
def downloadResultRecordText (s : StudentRec) : String :=
  String.intercalate "\n" (studentLines "-" s)

/-- The guard and markup payload of `downloadDoc` (lines 6-18): `none` when
`!result && !(scores && scores.length)` returns early, otherwise the result
of the markup-builder call `buildReportHTML(scores, result, title,
lastTitle)`; the builder lives in `reportBuilders.jsx` and is taken as a
parameter. The shared early-return guard: -/
def noDataGuard (result : String) (scores : Option (List StudentRec)) : Bool :=
  result = "" && (match scores with | some l => l.isEmpty | none => true)

/-- The guard and markup payload of `downloadDoc`. -/
def downloadDocHtml (build : Option (List StudentRec) → String → String → String → String)
    (result : String) (scores : Option (List StudentRec)) (title lastTitle : String) :
    Option String :=
  if noDataGuard result scores then none
  else some (build scores result title lastTitle)

/-- The guard and markup payload of `downloadPdf` (lines 23-36): the same
guard and the same builder call; the string handed to the print window. -/
def downloadPdfHtml (build : Option (List StudentRec) → String → String → String → String)
    (result : String) (scores : Option (List StudentRec)) (title lastTitle : String) :
    Option String :=
  if noDataGuard result scores then none
  else some (build scores result title lastTitle)

/-- Media type of the `downloadDoc` container. -/
def docMediaType : String := "application/msword"

theorem scoresArrayOf_eq_numericScores (rs : List StudentRec) :
    scoresArrayOf rs = numericScores rs := by
  induction rs with
  | nil => rfl
  | cons s t ih =>
    cases hs : s.score_percent with
    | num q =>
      simp [scoresArrayOf, validScores, numericScores, List.filterMap_cons, toValidRow, hs] at *
      exact ih
    | strv v =>
      simp [scoresArrayOf, validScores, numericScores, List.filterMap_cons, toValidRow, hs] at *
      exact ih
    | undef =>
      simp [scoresArrayOf, validScores, numericScores, List.filterMap_cons, toValidRow, hs] at *
      exact ih

theorem validScores_drop_unscored (rs : List StudentRec) :
    validScores (rs.filter fun s => !isUnscoredMarker s) = validScores rs := by
  induction rs with
  | nil => rfl
  | cons s t ih =>
    cases hs : s.score_percent with
    | num q =>
      simp [validScores, List.filter_cons, isUnscoredMarker, hs, List.filterMap_cons,
        toValidRow] at *
      exact ih
    | strv v =>
      by_cases hv : v = "-"
      · subst hv
        simp [validScores, List.filter_cons, isUnscoredMarker, hs, List.filterMap_cons,
          toValidRow] at *
        exact ih
      · simp [validScores, List.filter_cons, isUnscoredMarker, hs, hv, List.filterMap_cons,
          toValidRow] at *
        exact ih
    | undef =>
      simp [validScores, List.filter_cons, isUnscoredMarker, hs, List.filterMap_cons,
        toValidRow] at *
      exact ih

theorem foldl_max_mem (xs : List ℚ) (x : ℚ) : xs.foldl max x ∈ x :: xs := by
  induction xs generalizing x with
  | nil => simp
  | cons a t ih =>
    simp only [List.foldl_cons]
    have h := ih (max x a)
    rcases List.mem_cons.mp h with h1 | h1
    · rw [h1]
      rcases max_choice x a with h2 | h2
      · rw [h2]; exact List.mem_cons_self _ _
      · rw [h2]; exact List.mem_cons_of_mem _ (List.mem_cons_self _ _)
    · exact List.mem_cons_of_mem _ (List.mem_cons_of_mem _ h1)

theorem le_foldl_max (xs : List ℚ) : ∀ x y : ℚ, y ∈ x :: xs → y ≤ xs.foldl max x := by
  induction xs with
  | nil =>
    intro x y h
    simp at h
    simp [h]
  | cons a t ih =>
    intro x y h
    simp only [List.foldl_cons]
    rcases List.mem_cons.mp h with h1 | h1
    · subst h1
      exact le_trans (le_max_left y a) (ih (max y a) (max y a) (List.mem_cons_self _ _))
    · rcases List.mem_cons.mp h1 with h2 | h2
      · subst h2
        exact le_trans (le_max_right x y) (ih (max x y) (max x y) (List.mem_cons_self _ _))
      · exact ih (max x a) y (List.mem_cons_of_mem _ h2)

theorem foldl_min_mem (xs : List ℚ) (x : ℚ) : xs.foldl min x ∈ x :: xs := by
  induction xs generalizing x with
  | nil => simp
  | cons a t ih =>
    simp only [List.foldl_cons]
    have h := ih (min x a)
    rcases List.mem_cons.mp h with h1 | h1
    · rw [h1]
      rcases min_choice x a with h2 | h2
      · rw [h2]; exact List.mem_cons_self _ _
      · rw [h2]; exact List.mem_cons_of_mem _ (List.mem_cons_self _ _)
    · exact List.mem_cons_of_mem _ (List.mem_cons_of_mem _ h1)

theorem foldl_min_le (xs : List ℚ) : ∀ x y : ℚ, y ∈ x :: xs → xs.foldl min x ≤ y := by
  induction xs with
  | nil =>
    intro x y h
    simp at h
    simp [h]
  | cons a t ih =>
    intro x y h
    simp only [List.foldl_cons]
    rcases List.mem_cons.mp h with h1 | h1
    · subst h1
      exact le_trans (ih (min y a) (min y a) (List.mem_cons_self _ _)) (min_le_left y a)
    · rcases List.mem_cons.mp h1 with h2 | h2
      · subst h2
        exact le_trans (ih (min x y) (min x y) (List.mem_cons_self _ _)) (min_le_right x y)
      · exact ih (min x a) y (List.mem_cons_of_mem _ h2)


/-- C1: for every collection of score records given to `downloadExcel`, the
computed `average` string is the two-decimal rendering of the arithmetic
mean of exactly the records whose `score_percent` is a number, and the
literal `N/A` when no record has a numeric score; removing the records that
carry the unscored marker changes neither the average nor the
highest/lowest selections. -/
theorem downloadExcel_average_spec (rs : List StudentRec) :
    (numericScores rs = [] → averageOf rs = "N/A") ∧
    (numericScores rs ≠ [] →
      averageOf rs =
        toFixed2 ((numericScores rs).sum / ((numericScores rs).length : ℚ))) ∧
    averageOf (rs.filter fun s => !isUnscoredMarker s) = averageOf rs ∧
    highestStudentsOf (rs.filter fun s => !isUnscoredMarker s) = highestStudentsOf rs ∧
    lowestStudentsOf (rs.filter fun s => !isUnscoredMarker s) = lowestStudentsOf rs := by
  have hA : scoresArrayOf rs = numericScores rs := scoresArrayOf_eq_numericScores rs
  have hB : validScores (rs.filter fun s => !isUnscoredMarker s) = validScores rs :=
    validScores_drop_unscored rs
  refine ⟨?_, ?_, ?_, ?_, ?_⟩
  · intro h
    have h0 : scoresArrayOf rs = [] := by rw [hA, h]
    simp [averageOf, h0]
  · intro h
    have h0 : scoresArrayOf rs ≠ [] := by rw [hA]; exact h
    have hlen : (scoresArrayOf rs).length > 0 := List.length_pos.mpr h0
    rw [hA] at hlen
    simp only [averageOf, hA]
    rw [if_pos hlen]
  · simp only [averageOf, scoresArrayOf, hB]
  · simp only [highestStudentsOf, maxScoreOf, scoresArrayOf, hB]
  · simp only [lowestStudentsOf, minScoreOf, scoresArrayOf, hB]

/-- Concrete records of the spec's worked example (scores 100 and 40, plus
an unscored record). -/
def c1Rows : List StudentRec :=
  [⟨some "Alice", ScoreVal.num 100, some "r1", none⟩,
   ⟨some "Bob", ScoreVal.num 40, some "r2", none⟩,
   ⟨some "Carol", ScoreVal.strv "-", some "r3", none⟩]

/-- Witness for C1 at the spec's example: the scored subset is non-empty and
the average renders its mean. -/
theorem downloadExcel_average_spec_witness :
    numericScores c1Rows ≠ [] ∧
      averageOf c1Rows =
        toFixed2 ((numericScores c1Rows).sum / ((numericScores c1Rows).length : ℚ)) :=
  ⟨by simp [numericScores, c1Rows, List.filterMap_cons],
   (downloadExcel_average_spec c1Rows).2.1
     (by simp [numericScores, c1Rows, List.filterMap_cons])⟩

/-- C2: whenever at least one record is numerically scored, the maximum and
minimum are attained on the valid rows, and the highest (resp. lowest) group
is exactly the set of valid rows whose score lies within the absolute
tolerance `0.01 = 1/100` of that maximum (resp. minimum) — every tied row is
kept, none is dropped. -/
theorem downloadExcel_tie_groups (rs : List StudentRec) (h : numericScores rs ≠ []) :
    (∃ m, maxScoreOf rs = some m ∧ m ∈ scoresArrayOf rs ∧
      (∀ v ∈ validScores rs, v.score ≤ m) ∧
      (∀ v, v ∈ highestStudentsOf rs ↔ v ∈ validScores rs ∧ |v.score - m| < 1 / 100)) ∧
    (∃ m, minScoreOf rs = some m ∧ m ∈ scoresArrayOf rs ∧
      (∀ v ∈ validScores rs, m ≤ v.score) ∧
      (∀ v, v ∈ lowestStudentsOf rs ↔ v ∈ validScores rs ∧ |v.score - m| < 1 / 100)) := by
  have h0 : scoresArrayOf rs ≠ [] := by
    rw [scoresArrayOf_eq_numericScores]; exact h
  rcases heq : scoresArrayOf rs with _ | ⟨x, xs⟩
  · exact absurd heq h0
  constructor
  · refine ⟨xs.foldl max x, ?_, ?_, ?_, ?_⟩
    · simp [maxScoreOf, heq]
    · exact foldl_max_mem xs x
    · intro v hv
      have hmem : v.score ∈ scoresArrayOf rs := List.mem_map_of_mem _ hv
      rw [heq] at hmem
      exact le_foldl_max xs x v.score hmem
    · intro v
      have hm : maxScoreOf rs = some (xs.foldl max x) := by simp [maxScoreOf, heq]
      simp only [highestStudentsOf, hm, List.mem_filter, decide_eq_true_eq]
  · refine ⟨xs.foldl min x, ?_, ?_, ?_, ?_⟩
    · simp [minScoreOf, heq]
    · exact foldl_min_mem xs x
    · intro v hv
      have hmem : v.score ∈ scoresArrayOf rs := List.mem_map_of_mem _ hv
      rw [heq] at hmem
      exact foldl_min_le xs x v.score hmem
    · intro v
      have hm : minScoreOf rs = some (xs.foldl min x) := by simp [minScoreOf, heq]
      simp only [lowestStudentsOf, hm, List.mem_filter, decide_eq_true_eq]

/-- Concrete records of the claim's tie example: scores 92.00 and 92.005. -/
def c2Rows : List StudentRec :=
  [⟨some "Ann", ScoreVal.num 92, some "ra", none⟩,
   ⟨some "Ben", ScoreVal.num (18401 / 200), some "rb", none⟩,
   ⟨some "Cy", ScoreVal.strv "-", some "rc", none⟩]

/-- Witness for C2: with scores 92.00 and 92.005 = 18401/200, the maximum is
92.005 and both rows belong to the highest group. -/
theorem downloadExcel_tie_groups_witness :
    (⟨"Ann", 92, "ra", "-"⟩ : ValidRow) ∈ highestStudentsOf c2Rows ∧
      (⟨"Ben", 18401 / 200, "rb", "-"⟩ : ValidRow) ∈ highestStudentsOf c2Rows := by
  obtain ⟨⟨m, hm, _, _, hiff⟩, _⟩ :=
    downloadExcel_tie_groups c2Rows (by simp [numericScores, c2Rows, List.filterMap_cons])
  have hmax : maxScoreOf c2Rows = some (18401 / 200 : ℚ) := by
    simp [maxScoreOf, scoresArrayOf, validScores, c2Rows, toValidRow, List.filterMap_cons]
    norm_num [max_eq_right]
  have hmval : m = 18401 / 200 := by
    rw [hmax] at hm
    exact Option.some.inj hm.symm
  subst hmval
  constructor
  · refine (hiff _).mpr ⟨?_, ?_⟩
    · simp [validScores, c2Rows, toValidRow, List.filterMap_cons, orDash, extractFeedback]
    · rw [abs_lt]; constructor <;> norm_num
  · refine (hiff _).mpr ⟨?_, ?_⟩
    · simp [validScores, c2Rows, toValidRow, List.filterMap_cons, orDash, extractFeedback]
    · rw [abs_lt]; constructor <;> norm_num

/-- The canonical value space of `score_percent` documented by the data
model: a number or the unscored marker `'-'`. -/
def CanonicalScore (v : ScoreVal) : Prop :=
  (∃ q, v = ScoreVal.num q) ∨ v = ScoreVal.strv "-"

theorem jsNumber_dash : jsNumber "-" = none := by rfl

/-- C6 (amended): over records whose score is a number or the unscored
marker, the `Need to improve` field is the literal `None` when the numeric
score is present and at least 100 and is otherwise the (possibly empty)
reasoning text — so it equals `None` exactly when the score is at least 100
provided the reasoning text is not itself the string `None`; the field is
rendered as the fourth line by both the `buildStudentText` path and the
per-record path of `downloadResult`. -/
theorem needImprove_spec (s : StudentRec) (h : CanonicalScore s.score_percent) :
    (∀ q, s.score_percent = ScoreVal.num q → 100 ≤ q → needImprove s = "None") ∧
    (∀ q, s.score_percent = ScoreVal.num q → q < 100 → needImprove s = reasonStr s) ∧
    (s.score_percent = ScoreVal.strv "-" → needImprove s = reasonStr s) ∧
    (reasonStr s ≠ "None" →
      (needImprove s = "None" ↔ ∃ q, s.score_percent = ScoreVal.num q ∧ 100 ≤ q)) ∧
    (∀ fallback, (studentLines fallback s).get? 3 =
      some ("Need to improve: " ++ needImprove s)) ∧
    buildStudentText s = String.intercalate "\n" (studentLines "Student" s) ∧
    downloadResultRecordText s = String.intercalate "\n" (studentLines "-" s) := by
  refine ⟨?_, ?_, ?_, ?_, ?_, rfl, rfl⟩
  · intro q hq hge
    simp [needImprove, scNumOf, hq, if_pos hge]
  · intro q hq hlt
    simp [needImprove, scNumOf, hq, if_neg (not_le.mpr hlt)]
  · intro hq
    simp [needImprove, scNumOf, hq, jsNumber_dash]
  · intro hr
    constructor
    · intro hn
      rcases h with ⟨q, hq⟩ | hq
      · refine ⟨q, hq, ?_⟩
        by_contra hlt
        rw [(by simp [needImprove, scNumOf, hq, if_neg hlt] :
          needImprove s = reasonStr s)] at hn
        exact hr hn
      · rw [(by simp [needImprove, scNumOf, hq, jsNumber_dash] :
          needImprove s = reasonStr s)] at hn
        exact absurd hn hr
    · rintro ⟨q, hq, hge⟩
      simp [needImprove, scNumOf, hq, if_pos hge]
  · intro fallback
    simp [studentLines]

/-- Counterexample to C6 as stated: a record scoring 50 whose reasoning text
is the string `None` makes the rendered field equal `None` although the
numeric score is below 100 — the claimed equivalence fails. -/
theorem needImprove_counterexample :
    needImprove ⟨some "Dana", ScoreVal.num 50, some "None", none⟩ = "None" ∧
      (⟨some "Dana", ScoreVal.num 50, some "None", none⟩ : StudentRec).score_percent =
        ScoreVal.num 50 ∧
      ¬ (100 ≤ (50 : ℚ)) := by
  refine ⟨?_, rfl, by norm_num⟩
  simp [needImprove, scNumOf, reasonStr, jsTruthyStr,
    if_neg (not_le.mpr (by norm_num : (50 : ℚ) < 100))]

/-- Witness for the amended C6: a record scoring exactly 100 renders the
field as `None`. -/
theorem needImprove_spec_witness :
    needImprove ⟨some "Eve", ScoreVal.num 100, some "fix the intro", none⟩ = "None" :=
  (needImprove_spec ⟨some "Eve", ScoreVal.num 100, some "fix the intro", none⟩
    (Or.inl ⟨100, rfl⟩)).1 100 rfl (by norm_num)

/-- C8: `downloadDoc` and `downloadPdf` share the same early-return guard
and hand the same markup-builder call `buildReportHTML(scores, result,
title, lastTitle)` to their respective containers, so for every builder and
every argument tuple the emitted byte content is identical; only the
container (an `application/msword` blob versus a print window) differs. -/
theorem doc_pdf_same_markup
    (build : Option (List StudentRec) → String → String → String → String)
    (result : String) (scores : Option (List StudentRec)) (title lastTitle : String) :
    downloadDocHtml build result scores title lastTitle =
      downloadPdfHtml build result scores title lastTitle := rfl

/-- C10: both processors return the empty array on every non-string input
instead of throwing. -/
theorem processors_total_on_non_strings (v : JSVal) (h : jsIsString v = false) :
    splitPPTFileSectionsJS v = [] ∧ extractPPTScoresJS v = [] := by
  cases v <;> simp_all [jsIsString, splitPPTFileSectionsJS, extractPPTScoresJS]

/-- Witness for C10 at `null`. -/
theorem processors_total_on_non_strings_witness :
    splitPPTFileSectionsJS JSVal.vnull = [] ∧ extractPPTScoresJS JSVal.vnull = [] :=
  processors_total_on_non_strings JSVal.vnull rfl

/-- The raw text of the spec's worked extraction example. -/
def c5Example : String :=
  "File: quiz1.pptx\nTotal Slides: 10\n\nCONTENT EVALUATION\nContent Quality Score: 80/100\nFeedback: Good structure\n\nVISUAL DESIGN EVALUATION\nStructure Score: 60/100"

set_option maxRecDepth 20000 in
unseal Rat.add Rat.mul Rat.inv in
/-- C5: the score extracted from a section is the arithmetic mean of the
integer values of whichever of the three `<label> Score: <n>/100` markers
are present, and stays unresolved (never a default 0 or 100) when none is;
on the spec's example text the extractor yields exactly one record named
`quiz1.pptx` with score 70 (the mean of 80 and 60) and reasoning
`Good structure`. -/
theorem extractPPTScores_mean_spec :
    (∀ cs : List Char,
      scoreOf cs =
        if presentScores cs = [] then none
        else some (((presentScores cs).map fun n => (n : ℚ)).sum /
          ((presentScores cs).length : ℚ))) ∧
    extractPPTScores c5Example =
      [⟨"quiz1.pptx", ScoreVal.num 70, "Good structure"⟩] := by
  constructor
  · intro cs
    cases hC : scoreScan ("Content Quality Score:".data) cs <;>
      cases hS : scoreScan ("Structure Score:".data) cs <;>
        cases hA : scoreScan ("Alignment Score:".data) cs <;>
          simp [scoreOf, presentScores, hC, hS, hA]
  · decide

/-- C7: a section contributes a record exactly when it yields a non-empty
filename and either a resolved score or non-empty feedback; in a
contributed record a missing `Feedback:` line yields the literal
`Evaluation completed` and a missing `File:` marker yields the literal
`Unknown`; and the output collection is exactly the per-section records of
the split, sections with neither excluded silently. -/
theorem extractPPTScores_contribution_spec :
    (∀ cs : List Char,
      (sectionRecord cs = none ↔
        filenameOf cs = [] ∨ (scoreOf cs = none ∧ reasoningOf cs = []))) ∧
    (∀ (cs : List Char) (r : PPTRec), sectionRecord cs = some r →
      (reasoningOf cs = [] → r.reasoning = "Evaluation completed") ∧
      (fileMatchCap false cs = none → r.name = "Unknown")) ∧
    (∀ result : String,
      extractPPTScores result =
        (splitPPTFileSections result).filterMap fun sec => sectionRecord sec.data) := by
  refine ⟨?_, ?_, ?_⟩
  · intro cs
    by_cases h : filenameOf cs ≠ [] ∧ ((scoreOf cs).isSome = true ∨ reasoningOf cs ≠ [])
    · simp only [sectionRecord, if_pos h]
      constructor
      · intro hc; exact absurd hc (by simp)
      · intro hc
        rcases h with ⟨hf, hsr⟩
        rcases hc with hc | ⟨hs, hr⟩
        · exact (hf hc).elim
        · rcases hsr with hs2 | hr2
          · rw [hs] at hs2; exact absurd hs2 (by simp)
          · exact (hr2 hr).elim
    · simp only [sectionRecord, if_neg h]
      constructor
      · intro _
        by_contra hc
        push_neg at hc
        rcases hc with ⟨hf, hc2⟩
        apply h
        refine ⟨hf, ?_⟩
        by_cases hs : scoreOf cs = none
        · exact Or.inr (hc2 hs)
        · exact Or.inl (Option.isSome_iff_ne_none.mpr hs)
      · intro _; trivial
  · intro cs r hr
    rw [sectionRecord] at hr
    by_cases h : filenameOf cs ≠ [] ∧ ((scoreOf cs).isSome = true ∨ reasoningOf cs ≠ [])
    · rw [if_pos h] at hr
      have := Option.some.inj hr
      subst this
      constructor
      · intro hre
        simp [hre]
      · intro hfm
        simp [filenameOf, hfm]
    · rw [if_neg h] at hr
      exact absurd hr (by simp)
  · intro result
    by_cases h : result = ""
    · simp [extractPPTScores, splitPPTFileSections, h]
    · simp [extractPPTScores, h]

/-- Witness for C7: a plain text section with no filename, no score marker
and no feedback is silently excluded. -/
theorem extractPPTScores_contribution_spec_witness :
    sectionRecord ("just some notes".data) = none :=
  (extractPPTScores_contribution_spec.1 ("just some notes".data)).mpr
    (Or.inr ⟨by decide, by decide⟩)

/-- C9: every record produced by `extractPPTScores` comes from one of the
split sections and satisfies the invariants: non-empty name, non-empty
reasoning (the joined feedback or the fallback literal), and a
`score_percent` that is either a rational number or the unscored marker
`'-'` — never a null-like value and never a defaulted 0. -/
theorem extractPPTScores_record_invariants (result : String) (r : PPTRec)
    (hr : r ∈ extractPPTScores result) :
    r.name ≠ "" ∧ r.reasoning ≠ "" ∧
      ((∃ q, r.score_percent = ScoreVal.num q) ∨ r.score_percent = ScoreVal.strv "-") ∧
      ∃ sec ∈ splitPPTFileSections result, sectionRecord sec.data = some r ∧
        (r.reasoning = "Evaluation completed" ∨ r.reasoning = ⟨reasoningOf sec.data⟩) := by
  have hmem : ∃ sec ∈ splitPPTFileSections result, sectionRecord sec.data = some r := by
    rw [extractPPTScores] at hr
    by_cases h : result = ""
    · rw [if_pos h] at hr; exact absurd hr (by simp)
    · rw [if_neg h] at hr
      rcases List.mem_filterMap.mp hr with ⟨sec, hsec, hrec⟩
      exact ⟨sec, hsec, hrec⟩
  rcases hmem with ⟨sec, hsec, hrec⟩
  have hfields := hrec
  rw [sectionRecord] at hfields
  by_cases h : filenameOf sec.data ≠ [] ∧
      ((scoreOf sec.data).isSome = true ∨ reasoningOf sec.data ≠ [])
  · rw [if_pos h] at hfields
    have hsubst := Option.some.inj hfields
    subst hsubst
    refine ⟨?_, ?_, ?_, sec, hsec, hrec, ?_⟩
    · intro he
      exact h.1 (congrArg String.data he)
    · by_cases hre : reasoningOf sec.data = []
      · simp [hre]
      · simp only [if_neg hre]
        intro he
        exact hre (congrArg String.data he)
    · cases hs : scoreOf sec.data with
      | some q => exact Or.inl ⟨q, by simp [hs]⟩
      | none => exact Or.inr (by simp [hs])
    · by_cases hre : reasoningOf sec.data = []
      · exact Or.inl (by simp [hre])
      · exact Or.inr (by simp [hre])
  · rw [if_neg h] at hfields
    exact absurd hfields (by simp)

theorem stepPart_cur_ne (st : SplitSt) (p : List Char) (hp : jsTrimList p ≠ []) :
    (stepPart st p).cur ≠ [] := by
  simp only [stepPart]
  split
  · simpa using hp
  · split
    · simp [nn]
    · split
      · simpa using hp
      · simp [nn]

theorem stepPart_no_header (st : SplitSt) (p : List Char)
    (hmain : isMainFileHeader (jsTrimList p) = false) (hcur : st.cur ≠ []) :
    stepPart st p = { st with cur := st.cur ++ nn ++ jsTrimList p } := by
  simp only [stepPart]
  rw [if_neg (by simp [newFileCond, hmain])]
  rw [if_neg hcur]
  split
  · rfl
  · rfl

theorem stepPart_first (st : SplitSt) (p : List Char)
    (hmain : isMainFileHeader (jsTrimList p) = false)
    (hcur : st.cur = []) (hname : st.curName = []) :
    stepPart st p =
      ⟨jsTrimList p, (extractedNameOf (jsTrimList p)).getD [], st.secs⟩ := by
  simp only [stepPart]
  rw [if_neg (by simp [newFileCond, hmain])]
  rw [if_neg (by simp [hname, hcur])]
  rw [if_pos hcur]

theorem foldl_stepPart_cur_ne (l : List (List Char)) (st : SplitSt)
    (hl : ∀ p ∈ l, jsTrimList p ≠ []) (hcur : st.cur ≠ []) :
    (l.foldl stepPart st).cur ≠ [] := by
  induction l generalizing st with
  | nil => exact hcur
  | cons p t ih =>
    rw [List.foldl_cons]
    exact ih _ (fun q hq => hl q (List.mem_cons_of_mem _ hq))
      (stepPart_cur_ne st p (hl p (List.mem_cons_self _ _)))

theorem foldl_stepPart_no_header (l : List (List Char)) (st : SplitSt)
    (hl : ∀ p ∈ l, isMainFileHeader (jsTrimList p) = false) (hcur : st.cur ≠ []) :
    l.foldl stepPart st =
      { st with cur := st.cur ++ (l.map fun p => nn ++ jsTrimList p).flatten } := by
  induction l generalizing st with
  | nil => simp
  | cons p t ih =>
    rw [List.foldl_cons, stepPart_no_header st p (hl p (List.mem_cons_self _ _)) hcur]
    rw [ih _ (fun q hq => hl q (List.mem_cons_of_mem _ hq)) (by simp [nn])]
    simp

theorem if_length_ne_nil {α : Type} (l d : List α) (hd : d ≠ []) :
    (if l.length > 0 then l else d) ≠ [] := by
  split
  · next h => exact List.length_pos.mp h
  · exact hd

theorem splitCore_ne_nil (cs : List Char) : splitCore cs ≠ [] := by
  simp only [splitCore]
  exact if_length_ne_nil _ _ (by simp)

/-- C3 (amended): the Section Splitter returns the empty sequence exactly
on the empty string and a non-empty sequence on every non-empty input
(it is total, so no input can raise a failure); when the candidate block
list is empty (an all-whitespace input) the original text is returned
verbatim as the sole Section, and when the header heuristic opens no
Section the result is a single Section holding the trimmed blocks rejoined
with one blank-line separator — not, in general, the verbatim original
text. -/
theorem splitPPTFileSections_shape (text : String) :
    (text = "" → splitPPTFileSections text = []) ∧
    (text ≠ "" → splitPPTFileSections text ≠ []) ∧
    (text ≠ "" → partsOf text.data = [] → splitPPTFileSections text = [text]) ∧
    (∀ p0 ps, partsOf text.data = p0 :: ps →
      (∀ p ∈ partsOf text.data, isMainFileHeader (jsTrimList p) = false) →
      splitPPTFileSections text =
        [⟨jsTrimList (joinBlocks ((partsOf text.data).map jsTrimList))⟩]) := by
  refine ⟨?_, ?_, ?_, ?_⟩
  · intro h
    simp [splitPPTFileSections, h]
  · intro h
    rw [splitPPTFileSections, if_neg h]
    simp [splitCore_ne_nil]
  · intro h hp
    rw [splitPPTFileSections, if_neg h]
    simp only [splitCore, hp, List.foldl_nil]
    simp
  · intro p0 ps hp hnh
    have hmem0 : p0 ∈ partsOf text.data := by
      rw [hp]; exact List.mem_cons_self _ _
    have htext : text ≠ "" := by
      intro he
      subst he
      have h0 : partsOf ("" : String).data = [] := by decide
      rw [h0] at hp
      exact List.noConfusion hp
    have hf : p0 ∈ splitBlocks text.data ∧ ¬jsTrimList p0 = [] := by
      simpa [partsOf] using hmem0
    have hne : jsTrimList p0 ≠ [] := hf.2
    rw [splitPPTFileSections, if_neg htext]
    simp only [splitCore, hp, List.foldl_cons]
    rw [stepPart_first ⟨[], [], []⟩ p0 (hnh p0 hmem0) rfl rfl]
    rw [foldl_stepPart_no_header ps _
      (fun q hq => hnh q (by rw [hp]; exact List.mem_cons_of_mem _ hq)) hne]
    have hcur : jsTrimList p0 ++ (ps.map fun p => nn ++ jsTrimList p).flatten ≠ [] := by
      intro hc
      exact hne (List.append_eq_nil.mp hc).1
    simp only [hp]
    simp only [hcur, joinBlocks, List.map_map, ne_eq, not_false_iff, if_pos,
      List.map_cons, List.nil_append, List.cons.injEq, and_true]
    rfl

/-- Witness for C3 at `"alpha \n\n beta"`: two headerless blocks collapse to
one Section, the trimmed blocks rejoined with a blank line. -/
theorem splitPPTFileSections_shape_witness :
    splitPPTFileSections "alpha \n\n beta" =
      [⟨jsTrimList (joinBlocks ((partsOf ("alpha \n\n beta" : String).data).map
        jsTrimList))⟩] :=
  (splitPPTFileSections_shape "alpha \n\n beta").2.2.2 ("alpha ".data) [" beta".data]
    (by decide) (by decide)

/-- Counterexample to C3 as stated: on `"alpha \n\n beta"` the header
heuristics never open a Section, yet the sole returned Section is the
normalized rejoin `"alpha\n\nbeta"`, not the entire original text. -/
theorem splitPPTFileSections_counterexample :
    isMainFileHeader (jsTrimList ("alpha ".data)) = false ∧
      isMainFileHeader (jsTrimList (" beta".data)) = false ∧
      partsOf ("alpha \n\n beta" : String).data = ["alpha ".data, " beta".data] ∧
      splitPPTFileSections "alpha \n\n beta" = ["alpha\n\nbeta"] ∧
      ("alpha\n\nbeta" : String) ≠ "alpha \n\n beta" := by decide

theorem occursAt_cons_shift (t : List Char) (c : Char) (n : List Char) (k : Nat)
    (h : OccursAt t (c :: n) k) : OccursAt t n (k + 1) := by
  rw [OccursAt, List.isPrefixOf_iff_prefix] at h ⊢
  rcases h with ⟨s, hs⟩
  refine ⟨s, ?_⟩
  have hd : t.drop (k + 1) = (t.drop k).drop 1 := by
    rw [List.drop_drop]
  rw [hd, ← hs]
  rfl

theorem tryFileAt_some_starts (r : Bool) (l cap : List Char)
    (h : tryFileAt r l = some cap) : ("File:".data).isPrefixOf l = true := by
  by_cases hp : ("File:".data).isPrefixOf l = true
  · exact hp
  · have hfalse : ("File:".data).isPrefixOf l = false :=
      Bool.eq_false_iff.mpr hp
    rw [tryFileAt] at h
    simp [hfalse] at h

theorem fileScanAux_some_occurs (r : Bool) :
    ∀ (l : List Char) (b : Bool) (cap : List Char),
      fileScanAux r b l = some cap → ∃ k, OccursAt l ("File:".data) k := by
  intro l
  induction l with
  | nil =>
    intro b cap h
    rw [fileScanAux] at h
    have h0 : tryFileAt r ([] : List Char) = none := rfl
    cases b <;> simp [h0] at h
  | cons c ct ih =>
    intro b cap h
    rw [fileScanAux] at h
    cases hb : (if b then tryFileAt r (c :: ct) else none) with
    | some cap2 =>
      have hbt : tryFileAt r (c :: ct) = some cap2 := by
        cases b with
        | true => simpa using hb
        | false => simp at hb
      exact ⟨0, by simpa [OccursAt] using tryFileAt_some_starts r _ _ hbt⟩
    | none =>
      rw [hb] at h
      simp only at h
      rcases ih (c = '\n') cap h with ⟨k, hk⟩
      exact ⟨k + 1, by simpa [OccursAt] using hk⟩

theorem fileMatchCap_some_occurs (r : Bool) (t cap : List Char)
    (h : fileMatchCap r t = some cap) : ∃ k, OccursAt t ("File:".data) k :=
  fileScanAux_some_occurs r t true cap h

/-- The header test of the splitter phrased the way the specification
phrases it: a multiline header line, a newline-prefixed `Total Slides:`
occurrence, the first `File:` occurrence strictly before the first
`Total Slides:` occurrence, which in turn lies strictly before every
occurrence of either evaluation marker. -/
def HeaderSpec (t : List Char) : Prop :=
  (∃ cap, fileMatchCap true t = some cap) ∧
  (∃ k, OccursAt t ("\nTotal Slides:".data) k) ∧
  ∃ i j, FirstOccurAt t ("File:".data) i ∧ FirstOccurAt t ("Total Slides:".data) j ∧
    i < j ∧
    ∀ k, (OccursAt t ("CONTENT EVALUATION".data) k ∨
      OccursAt t ("VISUAL DESIGN EVALUATION".data) k) → j < k

theorem isMainFileHeader_iff (t : List Char) :
    isMainFileHeader t = true ↔ HeaderSpec t := by
  simp only [isMainFileHeader, Bool.and_eq_true, decide_eq_true_eq]
  constructor
  · rintro ⟨⟨⟨hsf, hts⟩, hlt⟩, hev⟩
    obtain ⟨cap, hcap⟩ := Option.isSome_iff_exists.mp hsf
    obtain ⟨k0, hk0⟩ := (subIndex_isSome_iff t _).mp hts
    have hfsome : (subIndex t ("File:".data)).isSome = true :=
      (subIndex_isSome_iff t _).mpr (fileMatchCap_some_occurs true t cap hcap)
    have htsome : (subIndex t ("Total Slides:".data)).isSome = true :=
      (subIndex_isSome_iff t _).mpr ⟨k0 + 1, occursAt_cons_shift t '\n' _ k0 hk0⟩
    obtain ⟨i, hi⟩ := Option.isSome_iff_exists.mp hfsome
    obtain ⟨j, hj⟩ := Option.isSome_iff_exists.mp htsome
    refine ⟨⟨cap, hcap⟩, ⟨k0, hk0⟩, i, j,
      (subIndex_some_iff t _ i).mp hi, (subIndex_some_iff t _ j).mp hj, ?_, ?_⟩
    · rw [hi, hj] at hlt
      simp only [jsIdx] at hlt
      exact_mod_cast hlt
    · intro k hk
      rw [hj] at hev
      cases hce : subIndex t ("CONTENT EVALUATION".data) with
      | none =>
        cases hve : subIndex t ("VISUAL DESIGN EVALUATION".data) with
        | none =>
          rcases hk with hk | hk
          · exact absurd hk ((subIndex_none_iff t _).mp hce k)
          · exact absurd hk ((subIndex_none_iff t _).mp hve k)
        | some e2 =>
          rw [hce, hve] at hev
          simp only [optMin, jsIdx, decide_eq_true_eq] at hev
          rcases hk with hk | hk
          · exact absurd hk ((subIndex_none_iff t _).mp hce k)
          · exact lt_of_lt_of_le (by exact_mod_cast hev)
              (subIndex_le_of_occurs t _ e2 k hve hk)
      | some e1 =>
        cases hve : subIndex t ("VISUAL DESIGN EVALUATION".data) with
        | none =>
          rw [hce, hve] at hev
          simp only [optMin, jsIdx, decide_eq_true_eq] at hev
          rcases hk with hk | hk
          · exact lt_of_lt_of_le (by exact_mod_cast hev)
              (subIndex_le_of_occurs t _ e1 k hce hk)
          · exact absurd hk ((subIndex_none_iff t _).mp hve k)
        | some e2 =>
          rw [hce, hve] at hev
          simp only [optMin, jsIdx, decide_eq_true_eq] at hev
          have hjm : j < min e1 e2 := by exact_mod_cast hev
          rcases hk with hk | hk
          · exact lt_of_lt_of_le (lt_of_lt_of_le hjm (min_le_left _ _))
              (subIndex_le_of_occurs t _ e1 k hce hk)
          · exact lt_of_lt_of_le (lt_of_lt_of_le hjm (min_le_right _ _))
              (subIndex_le_of_occurs t _ e2 k hve hk)
  · rintro ⟨⟨cap, hcap⟩, ⟨k0, hk0⟩, i, j, hfi, htj, hij, hall⟩
    have hi : subIndex t ("File:".data) = some i := (subIndex_some_iff t _ i).mpr hfi
    have hj : subIndex t ("Total Slides:".data) = some j := (subIndex_some_iff t _ j).mpr htj
    refine ⟨⟨⟨?_, ?_⟩, ?_⟩, ?_⟩
    · simp [hcap]
    · exact (subIndex_isSome_iff t _).mpr ⟨k0, hk0⟩
    · rw [hi, hj]
      simp only [jsIdx]
      exact_mod_cast hij
    · rw [hj]
      cases hce : subIndex t ("CONTENT EVALUATION".data) with
      | none =>
        cases hve : subIndex t ("VISUAL DESIGN EVALUATION".data) with
        | none => simp [optMin]
        | some e2 =>
          have he2 := ((subIndex_some_iff t _ e2).mp hve).1
          simp only [optMin, decide_eq_true_eq, jsIdx]
          exact_mod_cast hall e2 (Or.inr he2)
      | some e1 =>
        have he1 := ((subIndex_some_iff t _ e1).mp hce).1
        cases hve : subIndex t ("VISUAL DESIGN EVALUATION".data) with
        | none =>
          simp only [optMin, decide_eq_true_eq, jsIdx]
          exact_mod_cast hall e1 (Or.inl he1)
        | some e2 =>
          have he2 := ((subIndex_some_iff t _ e2).mp hve).1
          simp only [optMin, decide_eq_true_eq, jsIdx]
          have h1 := hall e1 (Or.inl he1)
          have h2 := hall e2 (Or.inr he2)
          have : j < min e1 e2 := lt_min h1 h2
          exact_mod_cast this

/-- C4 (amended): one loop step pushes the accumulating Section (starts a
new one) exactly when a Section is accumulating and the block passes
`newFileCond`, which holds exactly when the block satisfies the header
conditions — a `File:` header line, a `Total Slides:` occurrence *preceded
by a line break*, the *first* `File:` occurrence strictly before the
*first* `Total Slides:` occurrence, that occurrence before every
evaluation marker — and the extracted trimmed filename differs from the
accumulating one; a block with no `Total Slides:` occurrence at all never
pushes, and a repeated header carrying the current filename is appended as
a continuation. -/
theorem stepPart_new_section_spec (st : SplitSt) (part : List Char) :
    ((stepPart st part).secs = st.secs ++
      (if newFileCond (jsTrimList part) st.curName && !st.cur.isEmpty
       then [jsTrimList st.cur] else [])) ∧
    (newFileCond (jsTrimList part) st.curName = true ↔
      HeaderSpec (jsTrimList part) ∧
        (st.curName = [] ∨ extractedNameOf (jsTrimList part) ≠ some st.curName)) ∧
    ((∀ k, ¬ OccursAt (jsTrimList part) ("Total Slides:".data) k) →
      (stepPart st part).secs = st.secs) ∧
    (st.curName ≠ [] → extractedNameOf (jsTrimList part) = some st.curName →
      stepPart st part = { st with cur := st.cur ++ nn ++ jsTrimList part }) := by
  refine ⟨?_, ?_, ?_, ?_⟩
  · simp only [stepPart]
    split
    · next hnf =>
      rw [hnf]
      by_cases hc : st.cur = []
      · simp [hc]
      · simp [hc, List.isEmpty_iff]
    · next hnf =>
      have hnf2 : newFileCond (jsTrimList part) st.curName = false :=
        Bool.eq_false_iff.mpr hnf
      rw [hnf2]
      simp only [Bool.false_and, if_neg Bool.false_ne_true, List.append_nil]
      split
      · rfl
      · split
        · rfl
        · rfl
  · rw [newFileCond]
    simp only [Bool.and_eq_true, Bool.or_eq_true, decide_eq_true_eq]
    rw [isMainFileHeader_iff]
  · intro hno
    have hnt : (subIndex (jsTrimList part) ("\nTotal Slides:".data)).isSome = false := by
      rw [Bool.eq_false_iff]
      intro hs
      obtain ⟨k, hk⟩ := (subIndex_isSome_iff _ _).mp hs
      exact hno (k + 1) (occursAt_cons_shift _ '\n' _ k hk)
    have hmain : isMainFileHeader (jsTrimList part) = false := by
      rw [isMainFileHeader]
      simp [hnt]
    simp only [stepPart]
    rw [if_neg (by simp [newFileCond, hmain])]
    split
    · rfl
    · split
      · rfl
      · rfl
  · intro hn he
    simp only [stepPart]
    rw [if_neg (by simp [newFileCond, he, hn])]
    rw [if_pos (by simp [he, hn])]

/-- Counterexample to C4 as stated: in
`"File: a\nTotal Slides: 1\n\nFile: b Total Slides: 2"` the second block
carries a leading `File:` line, a `Total Slides:` marker strictly after the
`File:` marker (indices 0 and 8) and no evaluation markers, and its
extracted trimmed filename differs from the accumulating `a` — the claim's
conditions all hold — yet the splitter returns a single Section: the code
additionally requires the `Total Slides:` occurrence to be preceded by a
line break (`'\nTotal Slides:'`), which a same-line marker fails. -/
theorem stepPart_new_section_counterexample :
    subIndex ("File: b Total Slides: 2".data) ("File:".data) = some 0 ∧
      subIndex ("File: b Total Slides: 2".data) ("Total Slides:".data) = some 8 ∧
      subIndex ("File: b Total Slides: 2".data) ("CONTENT EVALUATION".data) = none ∧
      subIndex ("File: b Total Slides: 2".data) ("VISUAL DESIGN EVALUATION".data) = none ∧
      extractedNameOf ("File: b Total Slides: 2".data) = some ("b Total Slides: 2".data) ∧
      ("b Total Slides: 2" : String) ≠ "a" ∧
      splitPPTFileSections "File: a\nTotal Slides: 1\n\nFile: b Total Slides: 2" =
        ["File: a\nTotal Slides: 1\n\nFile: b Total Slides: 2"] := by decide

/-- Witness for C4: a repeated header carrying the accumulating filename
`a` is appended to the current Section instead of starting a new one. -/
theorem stepPart_new_section_spec_witness :
    stepPart ⟨"File: a\nTotal Slides: 1".data, "a".data, []⟩
        ("File: a\nTotal Slides: 9".data) =
      ⟨"File: a\nTotal Slides: 1".data ++ nn ++
        jsTrimList ("File: a\nTotal Slides: 9".data), "a".data, []⟩ :=
  (stepPart_new_section_spec ⟨"File: a\nTotal Slides: 1".data, "a".data, []⟩
    ("File: a\nTotal Slides: 9".data)).2.2.2 (by decide) (by decide)

set_option maxRecDepth 20000 in
unseal Rat.add Rat.mul Rat.inv in
/-- Witness for C9 at the spec's example record. -/
theorem extractPPTScores_record_invariants_witness :
    ("quiz1.pptx" : String) ≠ "" ∧ ("Good structure" : String) ≠ "" := by
  have h := extractPPTScores_record_invariants c5Example
    ⟨"quiz1.pptx", ScoreVal.num 70, "Good structure"⟩ (by decide)
  exact ⟨h.1, h.2.1⟩
